import Mathlib

/-!
Verification of the geography question-answering core (`server.py`).

The development shallowly embeds the query-interpretation and
answer-generation engine: `load_geo` (the DataStore builder), the
whitespace normalizer `normalize_spaces`, the four ordered regex intents
of `GeoLLM.Ask`, and the response construction, all over `List Char`.

Modelling notes, stated once here:
* Text is `List Char`.  Python `str.lower` is modelled by `Char.toLower`
  (ASCII case mapping), `str.strip` / the regex class `\s` by the six
  ASCII whitespace characters, and the regex class `\w` (for `\b`) by
  ASCII alphanumerics plus underscore.
* The four patterns are anchored searches of a literal phrase preceded
  by a word boundary and followed by a captured remainder.  `re.search`
  is modelled by a left-to-right scan that succeeds at the first
  position where the whole pattern matches.  `Ask` only ever matches
  the whitespace-normalized question, which contains no newline, so the
  newline subtleties of `.` and `$` do not arise: for pattern 1, 3 and
  4 the tail `(.+)$` (for pattern 4, `(.+)\??$`, whose greedy `.+` also
  swallows a trailing `?`, leaving `\??` to match the empty string)
  matches exactly a nonempty remainder, captured whole; for pattern 2
  the lazy tail `(.+?) in\??$` matches exactly when the remainder ends
  in ` in` or ` in?` with a nonempty capture in front.
* Python dicts are association lists: assignment overwrites in place or
  appends a new key at the end; `setdefault(k, []).append(x)` appends
  to the bucket of `k`, creating it if missing.
* The gRPC layer is out of scope: `Ask` takes the request fields
  (question, top_k as an `Int` for the int32 field, include_sources)
  and returns the response record (answer, sources).
-/

/-- ASCII whitespace, the characters Python's `str.strip` and the regex
class `\s` treat as whitespace in ASCII text. -/
def isSpaceChar (c : Char) : Bool :=
  c = ' ' || c = '\t' || c = '\n' || c = '\r' || c = '\x0b' || c = '\x0c'

/-- ASCII word characters, the class `\w` used by the boundary `\b`. -/
def isWordChar (c : Char) : Bool :=
  c.isAlphanum || c = '_'

/-- Python `str.lower`, ASCII fragment, applied characterwise. -/
def lowerL (l : List Char) : List Char :=
  l.map Char.toLower

/-- Characters of a string literal. -/
def strL (s : String) : List Char :=
  s.data

/-- Python `str.rstrip`: drop trailing whitespace. -/
def rstripL (l : List Char) : List Char :=
  (l.reverse.dropWhile isSpaceChar).reverse

/-- Python `str.strip`: drop leading and trailing whitespace. -/
def stripChars (l : List Char) : List Char :=
  rstripL (l.dropWhile isSpaceChar)

/-- Replace each maximal run of whitespace by one space; `prevSpace`
records whether the previous character belonged to a run. -/
def collapseAux : List Char → Bool → List Char
  | [], _ => []
  | c :: rest, prevSpace =>
    if isSpaceChar c then
      if prevSpace then collapseAux rest true
      else ' ' :: collapseAux rest true
    else c :: collapseAux rest false

/-- The `prevSpace` state after feeding a list to `collapseAux`. -/
def collapseState : List Char → Bool → Bool
  | [], s => s
  | c :: rest, _ => collapseState rest (isSpaceChar c)

/-- The server's `normalize_spaces`: strip, then collapse every
whitespace run (`re.sub(r"\s+", " ", s.strip())`). -/
def normalizeSpaces (l : List Char) : List Char :=
  collapseAux (stripChars l) false

/-- The question as `Ask` matches it: whitespace-normalized, lowercased
(`normalize_spaces(request.question).lower()`). -/
def normQ (l : List Char) : List Char :=
  lowerL (normalizeSpaces l)

/-- Word boundary `\b` before a word character: satisfied at the start
of the string or after a non-word character. -/
def bdry : Option Char → Bool
  | none => true
  | some c => !(isWordChar c)

/-- Whether `p` is a literal prefix of `l`. -/
def hasPrefixL : List Char → List Char → Bool
  | [], _ => true
  | _ :: _, [] => false
  | p :: ps, c :: cs => p = c && hasPrefixL ps cs

/-- Whether `p` is a literal suffix of `l`. -/
def hasSuffixL (p l : List Char) : Bool :=
  hasPrefixL p.reverse l.reverse

/-- One position of the search for `\b<lit>(.+)$`: the boundary holds,
the literal phrase is present, and the remainder is nonempty; the
greedy `(.+)$` then captures the whole remainder. -/
def capMatchAt (lit : List Char) (prev : Option Char) (l : List Char) :
    Option (List Char) :=
  if bdry prev && hasPrefixL lit l && !(l.drop lit.length).isEmpty then
    some (l.drop lit.length)
  else none

/-- `re.search` for `\b<lit>(.+)$`: scan left to right, first matching
position wins; `prev` is the character before the current position. -/
def searchCapAux (lit : List Char) : Option Char → List Char → Option (List Char)
  | prev, [] => capMatchAt lit prev []
  | prev, c :: rest =>
    match capMatchAt lit prev (c :: rest) with
    | some cap => some cap
    | none => searchCapAux lit (some c) rest

/-- Pattern 1 literal, `capital of `. -/
def lit1 : List Char :=
  strL "capital of "

/-- Pattern 2 literal, `which continent is `. -/
def lit2 : List Char :=
  strL "which continent is "

/-- Pattern 3 literal, `list countries in `. -/
def lit3 : List Char :=
  strL "list countries in "

/-- Pattern 4 literal, `what is the capital of `. -/
def lit4 : List Char :=
  strL "what is the capital of "

/-- One position of the search for pattern 2,
`\bwhich continent is (.+?) in\??$`: after the literal, the remainder
must end in ` in` or ` in?` with a nonempty capture before it (the tail
is anchored at the end of the string, so the lazy capture is forced). -/
def p2MatchAt (prev : Option Char) (l : List Char) : Option (List Char) :=
  if bdry prev && hasPrefixL lit2 l then
    let r := l.drop lit2.length
    if hasSuffixL (strL " in?") r && decide (5 ≤ r.length) then
      some (r.take (r.length - 4))
    else if hasSuffixL (strL " in") r && decide (4 ≤ r.length) then
      some (r.take (r.length - 3))
    else none
  else none

/-- `re.search` for pattern 2. -/
def searchP2 : Option Char → List Char → Option (List Char)
  | prev, [] => p2MatchAt prev []
  | prev, c :: rest =>
    match p2MatchAt prev (c :: rest) with
    | some cap => some cap
    | none => searchP2 (some c) rest

/-- One loaded fact: the dict `{"country":…, "capital":…, "continent":…,
"row":…}` built by `load_geo`. -/
structure GeoItem where
  country : List Char
  capital : List Char
  continent : List Char
  row : List Char
deriving DecidableEq, Repr

/-- Python dict as an association list, insertion ordered. -/
def dictGet {α : Type} : List (List Char × α) → List Char → Option α
  | [], _ => none
  | (k, v) :: rest, key => if k = key then some v else dictGet rest key

/-- Python `d.get(key, dflt)`. -/
def dictGetD {α : Type} (d : List (List Char × α)) (key : List Char) (dflt : α) : α :=
  match dictGet d key with
  | some v => v
  | none => dflt

/-- Python `d[key] = v`: overwrite in place, or append a new key. -/
def dictInsert {α : Type} : List (List Char × α) → List Char → α → List (List Char × α)
  | [], key, v => [(key, v)]
  | (k, w) :: rest, key, v =>
    if k = key then (key, v) :: rest else (k, w) :: dictInsert rest key v

/-- Python `d.setdefault(key, []).append(x)`. -/
def dictListAppend {α : Type} : List (List Char × List α) → List Char → α → List (List Char × List α)
  | [], key, x => [(key, [x])]
  | (k, xs) :: rest, key, x =>
    if k = key then (k, xs ++ [x]) :: rest else (k, xs) :: dictListAppend rest key x

/-- The two indices built by `load_geo`: `countries` and `by_continent`. -/
structure Store where
  countries : List (List Char × GeoItem)
  by_continent : List (List Char × List GeoItem)
deriving DecidableEq, Repr

/-- The record a CSV row yields: `none` for a row with fewer than three
fields (`len(row) < 3: continue`), otherwise the stripped fields and the
provenance line `",".join([country, capital, continent])`. -/
def rowItem : List (List Char) → Option GeoItem
  | c0 :: c1 :: c2 :: _ =>
    some
      { country := stripChars c0
        capital := stripChars c1
        continent := stripChars c2
        row := stripChars c0 ++ strL "," ++ stripChars c1 ++ strL "," ++ stripChars c2 }
  | _ => none

/-- Records of the valid rows, in input order. -/
def itemsOf (rows : List (List (List Char))) : List GeoItem :=
  rows.filterMap rowItem

/-- One iteration of the `load_geo` loop: index a valid row by
lowercased country (overwriting) and append it to its continent bucket. -/
def loadStep (st : Store) (row : List (List Char)) : Store :=
  match rowItem row with
  | none => st
  | some it =>
    { countries := dictInsert st.countries (lowerL it.country) it
      by_continent := dictListAppend st.by_continent (lowerL it.continent) it }

/-- The server's `load_geo`, over the parsed rows of the CSV source. -/
def load_geo (rows : List (List (List Char))) : Store :=
  rows.foldl loadStep { countries := [], by_continent := [] }

/-- The `GeoResponse` message: answer text and provenance lines. -/
structure GeoResponse where
  answer : List Char
  sources : List (List Char)
deriving DecidableEq, Repr

/-- Python `", ".join`-style concatenation. -/
def joinSep (sep : List Char) : List (List Char) → List Char
  | [] => []
  | [x] => x
  | x :: xs => x ++ sep ++ joinSep sep xs

/-- The capital-lookup handler (patterns 1 and 4): `name` is the
stripped capture. -/
def capitalLookup (st : Store) (name : List Char) (inc : Bool) : GeoResponse :=
  match dictGet st.countries (lowerL name) with
  | some item =>
    { answer := strL "The capital of " ++ item.country ++ strL " is " ++ item.capital ++ strL "."
      sources := if inc then [item.row] else [] }
  | none =>
    { answer := strL "I don't have data for '" ++ name ++ strL "'."
      sources := [] }

/-- The continent-lookup handler (pattern 2). -/
def continentLookup (st : Store) (name : List Char) (inc : Bool) : GeoResponse :=
  match dictGet st.countries (lowerL name) with
  | some item =>
    { answer := item.country ++ strL " is in " ++ item.continent ++ strL "."
      sources := if inc then [item.row] else [] }
  | none =>
    { answer := strL "I don't have data for '" ++ name ++ strL "'."
      sources := [] }

/-- The continent-listing handler (pattern 3): `cap` is the stripped
capture, `topK` the already-defaulted limit (always positive). -/
def listCountries (st : Store) (cap : List Char) (topK : Int) (inc : Bool) : GeoResponse :=
  let items := (dictGetD st.by_continent (lowerL cap) []).take topK.toNat
  if items.isEmpty then
    { answer := strL "I don't have any countries for continent '" ++ cap ++ strL "'."
      sources := [] }
  else
    { answer := strL "Countries in " ++ cap ++ strL ": " ++
        joinSep (strL ", ") (items.map GeoItem.country) ++ strL "."
      sources := if inc then items.map GeoItem.row else [] }

/-- The fallback response: fixed help text listing three phrasings. -/
def fallbackResponse : GeoResponse :=
  { answer := strL "I can answer:\n1) 'capital of <country>'\n2) 'which continent is <country> in'\n3) 'list countries in <continent>'"
    sources := [] }

/-- Pattern 4 and the fallback, tried after patterns 1 to 3 fail. -/
def ask4 (st : Store) (q : List Char) (inc : Bool) : GeoResponse :=
  match searchCapAux lit4 none q with
  | some cap => capitalLookup st (stripChars cap) inc
  | none => fallbackResponse

/-- Pattern 3 onward. -/
def ask3 (st : Store) (q : List Char) (topK : Int) (inc : Bool) : GeoResponse :=
  match searchCapAux lit3 none q with
  | some cap => listCountries st (stripChars cap) topK inc
  | none => ask4 st q inc

/-- Pattern 2 onward. -/
def ask2 (st : Store) (q : List Char) (topK : Int) (inc : Bool) : GeoResponse :=
  match searchP2 none q with
  | some cap => continentLookup st (stripChars cap) inc
  | none => ask3 st q topK inc

/-- The body of `GeoLLM.Ask` on the already-normalized question `q`:
default the limit (`top_k if top_k > 0 else 10`), then try the four
patterns in order. -/
def AskQ (st : Store) (q : List Char) (top_k : Int) (inc : Bool) : GeoResponse :=
  let topK : Int := if 0 < top_k then top_k else 10
  match searchCapAux lit1 none q with
  | some cap => capitalLookup st (stripChars cap) inc
  | none => ask2 st q topK inc

/-- The server's `GeoLLM.Ask`: normalize and lowercase the question,
then dispatch. -/
def Ask (st : Store) (question : List Char) (top_k : Int) (inc : Bool) : GeoResponse :=
  AskQ st (normQ question) top_k inc

/-- Pattern 3 onward with the pattern-4 branch removed (patterns 1 and 2
are as in `Ask`); used to state that the pattern-4 branch is dead code. -/
def ask3NoP4 (st : Store) (q : List Char) (topK : Int) (inc : Bool) : GeoResponse :=
  match searchCapAux lit3 none q with
  | some cap => listCountries st (stripChars cap) topK inc
  | none => fallbackResponse

/-- Pattern 2 onward, pattern-4 branch removed. -/
def ask2NoP4 (st : Store) (q : List Char) (topK : Int) (inc : Bool) : GeoResponse :=
  match searchP2 none q with
  | some cap => continentLookup st (stripChars cap) inc
  | none => ask3NoP4 st q topK inc

/-- `Ask` with the pattern-4 branch removed. -/
def AskNoP4 (st : Store) (question : List Char) (top_k : Int) (inc : Bool) : GeoResponse :=
  let q := normQ question
  let topK : Int := if 0 < top_k then top_k else 10
  match searchCapAux lit1 none q with
  | some cap => capitalLookup st (stripChars cap) inc
  | none => ask2NoP4 st q topK inc

/-- The defaulted result limit: `top_k if top_k > 0 else 10`, as the
count of kept list entries. -/
def effTopK (top_k : Int) : Nat :=
  (if 0 < top_k then top_k else 10).toNat

/-- The character before the position right after `a`, when `prev` was
the character before `a`; used to state where a search position sits. -/
def lastPrev (prev : Option Char) (a : List Char) : Option Char :=
  match a.getLast? with
  | some c => some c
  | none => prev

/-- A one-row data source, the `India,New Delhi,Asia` example of the
specification. -/
def rowsIndia : List (List (List Char)) :=
  [[strL "India", strL "New Delhi", strL "Asia"]]

/-- The store loaded from `rowsIndia`. -/
def stIndia : Store :=
  load_geo rowsIndia

/-- A source with a duplicate country key under case folding: `FRANCE`
overwrites `France` in the country index. -/
def rowsDup : List (List (List Char)) :=
  [[strL "France", strL "Paris", strL "Europe"],
   [strL "FRANCE", strL "Lyon", strL "Europe"]]

/-- The store loaded from `rowsDup`. -/
def stDup : Store :=
  load_geo rowsDup

/-- Seven Asian countries in load order, the continent-listing example
of the specification. -/
def rowsAsia : List (List (List Char)) :=
  [[strL "India", strL "New Delhi", strL "Asia"],
   [strL "Japan", strL "Tokyo", strL "Asia"],
   [strL "China", strL "Beijing", strL "Asia"],
   [strL "Nepal", strL "Kathmandu", strL "Asia"],
   [strL "Thailand", strL "Bangkok", strL "Asia"],
   [strL "Vietnam", strL "Hanoi", strL "Asia"],
   [strL "Laos", strL "Vientiane", strL "Asia"]]

/-- The store loaded from `rowsAsia`. -/
def stAsia : Store :=
  load_geo rowsAsia

/-! Dictionary lemmas. -/

theorem dictGet_insert {α : Type} (d : List (List Char × α)) (k key : List Char) (v : α) :
    dictGet (dictInsert d k v) key = if k = key then some v else dictGet d key := by
  induction d with
  | nil => simp [dictGet, dictInsert]
  | cons hd rest ih =>
    obtain ⟨k', w⟩ := hd
    by_cases hk : k' = k
    · subst hk
      simp only [dictInsert, if_pos rfl]
      by_cases hkey : k' = key
      · simp [dictGet, hkey]
      · simp [dictGet, hkey]
    · simp only [dictInsert, if_neg hk]
      by_cases hkey : k' = key
      · subst hkey
        have : ¬ (k = k') := fun h => hk h.symm
        simp [dictGet, this]
      · simp [dictGet, hkey, ih]

theorem dictGetD_listAppend {α : Type} (d : List (List Char × List α)) (k key : List Char) (x : α) :
    dictGetD (dictListAppend d k x) key [] =
      dictGetD d key [] ++ if k = key then [x] else [] := by
  induction d with
  | nil =>
    by_cases hkey : k = key <;> simp [dictGetD, dictGet, dictListAppend, hkey]
  | cons hd rest ih =>
    obtain ⟨k', xs⟩ := hd
    by_cases hk : k' = k
    · subst hk
      simp only [dictListAppend, if_pos rfl]
      by_cases hkey : k' = key
      · simp [dictGetD, dictGet, hkey]
      · simp [dictGetD, dictGet, hkey]
    · simp only [dictListAppend, if_neg hk]
      by_cases hkey : k' = key
      · subst hkey
        have : ¬ (k = k') := fun h => hk h.symm
        simp [dictGetD, dictGet, this]
      · have h1 : ∀ e : List (List Char × List α), dictGetD ((k', xs) :: e) key [] = dictGetD e key [] := by
          intro e
          simp [dictGetD, dictGet, hkey]
        rw [h1, h1, ih]

/-! Invariants of `load_geo`, proved over the loop with an arbitrary
initial store. -/

theorem load_countries_aux (rows : List (List (List Char))) (st : Store) (key : List Char) :
    dictGet (rows.foldl loadStep st).countries key =
      ((itemsOf rows).filter fun it => decide (lowerL it.country = key)).getLast?.elim
        (dictGet st.countries key) some := by
  induction rows generalizing st with
  | nil => simp [itemsOf]
  | cons r rows ih =>
    rw [List.foldl_cons, ih]
    cases h : rowItem r with
    | none => simp [itemsOf, List.filterMap_cons, h, loadStep]
    | some it =>
      have hit : itemsOf (r :: rows) = it :: itemsOf rows := by
        simp [itemsOf, List.filterMap_cons, h]
      have hstep : (loadStep st r).countries = dictInsert st.countries (lowerL it.country) it := by
        simp [loadStep, h]
      rw [hit, List.filter_cons, hstep]
      by_cases hp : lowerL it.country = key
      · rw [if_pos (by simp [hp])]
        cases hF : ((itemsOf rows).filter fun j => decide (lowerL j.country = key)).getLast? with
        | some v =>
          have hne : ((itemsOf rows).filter fun j => decide (lowerL j.country = key)) ≠ [] := by
            intro hnil
            rw [hnil] at hF
            simp at hF
          obtain ⟨b, l, hbl⟩ : ∃ b l, ((itemsOf rows).filter fun j => decide (lowerL j.country = key)) = b :: l := by
            cases hFl : (itemsOf rows).filter fun j => decide (lowerL j.country = key) with
            | nil => exact absurd hFl hne
            | cons b l => exact ⟨b, l, rfl⟩
          rw [hbl] at hF ⊢
          rw [List.getLast?_cons_cons, hF]
          simp
        | none =>
          have hnil : ((itemsOf rows).filter fun j => decide (lowerL j.country = key)) = [] :=
            List.getLast?_eq_none_iff.mp hF
          rw [hnil, List.getLast?_singleton]
          simp [dictGet_insert, hp]
      · rw [if_neg (by simp [hp])]
        cases hF : ((itemsOf rows).filter fun j => decide (lowerL j.country = key)).getLast? with
        | some v => simp
        | none => simp [dictGet_insert, hp]

theorem load_continent_aux (rows : List (List (List Char))) (st : Store) (key : List Char) :
    dictGetD (rows.foldl loadStep st).by_continent key [] =
      dictGetD st.by_continent key [] ++
        ((itemsOf rows).filter fun it => decide (lowerL it.continent = key)) := by
  induction rows generalizing st with
  | nil => simp [itemsOf]
  | cons r rows ih =>
    rw [List.foldl_cons, ih]
    cases h : rowItem r with
    | none => simp [itemsOf, List.filterMap_cons, h, loadStep]
    | some it =>
      have hit : itemsOf (r :: rows) = it :: itemsOf rows := by
        simp [itemsOf, List.filterMap_cons, h]
      have hstep : (loadStep st r).by_continent =
          dictListAppend st.by_continent (lowerL it.continent) it := by
        simp [loadStep, h]
      rw [hit, List.filter_cons, hstep, dictGetD_listAppend, List.append_assoc]
      by_cases hp : lowerL it.continent = key
      · rw [if_pos hp, if_pos (by simp [hp])]
        simp
      · rw [if_neg hp, if_neg (by simp [hp])]
        simp

/-! Lemmas about the pattern searches. -/

theorem hasPrefixL_app (p r : List Char) : hasPrefixL p (p ++ r) = true := by
  induction p with
  | nil => rfl
  | cons c cs ih => simp [hasPrefixL, ih]

theorem hasPrefixL_eq_append (p l : List Char) (h : hasPrefixL p l = true) :
    l = p ++ l.drop p.length := by
  induction p generalizing l with
  | nil => simp
  | cons c cs ih =>
    cases l with
    | nil => simp [hasPrefixL] at h
    | cons d ds =>
      simp only [hasPrefixL, Bool.and_eq_true, decide_eq_true_eq] at h
      obtain ⟨rfl, h2⟩ := h
      simpa using ih ds h2

theorem searchCap_here (lit : List Char) (prev : Option Char) (l cap : List Char)
    (h : capMatchAt lit prev l = some cap) : searchCapAux lit prev l = some cap := by
  cases l with
  | nil => simpa [searchCapAux] using h
  | cons c cs => simp [searchCapAux, h]

theorem searchCap_self (lit r : List Char) (h : r ≠ []) :
    searchCapAux lit none (lit ++ r) = some r := by
  apply searchCap_here
  have hr : r.isEmpty = false := by
    cases r with
    | nil => exact absurd rfl h
    | cons c cs => rfl
  simp [capMatchAt, bdry, hasPrefixL_app, List.drop_left, hr]

theorem lastPrev_cons (prev : Option Char) (c : Char) (a : List Char) :
    lastPrev prev (c :: a) = lastPrev (some c) a := by
  cases a with
  | nil => simp [lastPrev]
  | cons d ds =>
    simp only [lastPrev, List.getLast?_cons_cons]
    cases h : (d :: ds).getLast? with
    | none => exact absurd (List.getLast?_eq_none_iff.mp h) (by simp)
    | some e => rfl

theorem searchCap_of_split (lit : List Char) (a b : List Char) (prev : Option Char)
    (cap : List Char) (h : capMatchAt lit (lastPrev prev a) b = some cap) :
    searchCapAux lit prev (a ++ b) ≠ none := by
  induction a generalizing prev with
  | nil =>
    rw [List.nil_append, searchCap_here lit prev b cap (by simpa [lastPrev] using h)]
    simp
  | cons c a ih =>
    rw [List.cons_append]
    cases hm : capMatchAt lit prev (c :: (a ++ b)) with
    | some cap' => simp [searchCapAux, hm]
    | none =>
      have := ih (some c) (by rw [← lastPrev_cons prev c a]; exact h)
      simpa [searchCapAux, hm] using this

theorem searchCap_some_split (lit : List Char) (l cap : List Char) (prev : Option Char)
    (h : searchCapAux lit prev l = some cap) :
    ∃ a b, l = a ++ b ∧ capMatchAt lit (lastPrev prev a) b = some cap := by
  induction l generalizing prev with
  | nil =>
    refine ⟨[], [], rfl, ?_⟩
    simpa [searchCapAux, lastPrev] using h
  | cons c rest ih =>
    cases hm : capMatchAt lit prev (c :: rest) with
    | some cap' =>
      have hc : cap' = cap := by
        have := h
        simp [searchCapAux, hm] at this
        exact this
      exact ⟨[], c :: rest, rfl, by simpa [lastPrev, hc] using hm⟩
    | none =>
      have hrec : searchCapAux lit (some c) rest = some cap := by
        have := h
        simpa [searchCapAux, hm] using this
      obtain ⟨a, b, hab, hcap⟩ := ih (some c) hrec
      exact ⟨c :: a, b, by rw [hab, List.cons_append], by rwa [lastPrev_cons]⟩

theorem capMatchAt_some (lit : List Char) (prev : Option Char) (l cap : List Char)
    (h : capMatchAt lit prev l = some cap) :
    bdry prev = true ∧ l = lit ++ cap ∧ cap ≠ [] := by
  unfold capMatchAt at h
  split at h
  · rename_i hc
    rw [Bool.and_eq_true, Bool.and_eq_true] at hc
    obtain ⟨⟨hb, hp⟩, hd⟩ := hc
    injection h with hcap
    refine ⟨hb, ?_, ?_⟩
    · rw [← hcap]
      exact hasPrefixL_eq_append lit l hp
    · rw [hcap] at hd
      intro hnil
      rw [hnil] at hd
      simp at hd
  · simp at h

/-- A question matched by the pattern-4 regex is matched by the
pattern-1 regex: the boundary `\b` of pattern 1 holds after the space
of `what is the `. -/
theorem searchP4_implies_P1 (l cap : List Char)
    (h : searchCapAux lit4 none l = some cap) :
    searchCapAux lit1 none l ≠ none := by
  obtain ⟨a, b, hab, hcap⟩ := searchCap_some_split lit4 l cap none h
  obtain ⟨_, hb, hne⟩ := capMatchAt_some lit4 (lastPrev none a) b cap hcap
  have hl : l = (a ++ strL "what is the ") ++ (lit1 ++ cap) := by
    rw [hab, hb]
    simp [lit4, lit1, strL]
  rw [hl]
  apply searchCap_of_split lit1 (a ++ strL "what is the ") (lit1 ++ cap) none cap
  have hlast : lastPrev none (a ++ strL "what is the ") = some ' ' := by
    simp [lastPrev, List.getLast?_append]
    rfl
  rw [hlast]
  have hce : cap.isEmpty = false := by
    cases cap with
    | nil => exact absurd rfl hne
    | cons c cs => rfl
  simp [capMatchAt, bdry, hasPrefixL_app, List.drop_left, hce, isWordChar]

/-! Claim theorems (with shared helper lemmas above). -/

/-- C10: the pattern-4 branch of `Ask` is unreachable: every normalized
question matched by the `what is the capital of <X>` regex is already
matched by pattern 1's `\bcapital of (.+)$` regex (whose word-boundary
anchor matches inside `the capital of`), so `Ask` is extensionally equal
to the variant `AskNoP4` with the pattern-4 branch removed. -/
theorem claimC10_pattern4_unreachable :
    (∀ l cap, searchCapAux lit4 none l = some cap → (searchCapAux lit1 none l).isSome = true)
    ∧ ∀ st q k inc, Ask st q k inc = AskNoP4 st q k inc := by
  constructor
  · intro l cap h
    have hne := searchP4_implies_P1 l cap h
    cases hh : searchCapAux lit1 none l with
    | none => exact absurd hh hne
    | some _ => rfl
  · intro st q k inc
    simp only [Ask, AskQ, AskNoP4]
    cases h1 : searchCapAux lit1 none (normQ q) with
    | some cap => rfl
    | none =>
      show ask2 st (normQ q) (if 0 < k then k else 10) inc =
        ask2NoP4 st (normQ q) (if 0 < k then k else 10) inc
      unfold ask2 ask2NoP4
      cases h2 : searchP2 none (normQ q) with
      | some cap => rfl
      | none =>
        show ask3 st (normQ q) (if 0 < k then k else 10) inc =
          ask3NoP4 st (normQ q) (if 0 < k then k else 10) inc
        unfold ask3 ask3NoP4
        cases h3 : searchCapAux lit3 none (normQ q) with
        | some cap => rfl
        | none =>
          show ask4 st (normQ q) inc = fallbackResponse
          unfold ask4
          cases h4 : searchCapAux lit4 none (normQ q) with
          | some cap => exact absurd h1 (searchP4_implies_P1 _ cap h4)
          | none => rfl

/-- Witness for C10 at concrete inputs: the pattern-4 regex matches
`what is the capital of x` and so does pattern 1, and `Ask` agrees with
`AskNoP4` there. -/
theorem claimC10_pattern4_unreachable_witness :
    (searchCapAux lit1 none (strL "what is the capital of x")).isSome = true
    ∧ Ask stIndia (strL "what is the capital of India") 3 true =
        AskNoP4 stIndia (strL "what is the capital of India") 3 true :=
  ⟨claimC10_pattern4_unreachable.1 (strL "what is the capital of x") (strL "x") (by decide),
   claimC10_pattern4_unreachable.2 stIndia (strL "what is the capital of India") 3 true⟩

/-- C7: a question matched by none of the four patterns gets the fixed
three-item fallback help text (pattern 4's phrasing is not listed) with
empty sources, whatever `top_k` and `include_sources` are, and never an
error: the response is total and fully determined. -/
theorem claimC7_fallback (st : Store) (q : List Char) (k : Int) (inc : Bool)
    (h1 : searchCapAux lit1 none (normQ q) = none)
    (h2 : searchP2 none (normQ q) = none)
    (h3 : searchCapAux lit3 none (normQ q) = none)
    (h4 : searchCapAux lit4 none (normQ q) = none) :
    Ask st q k inc =
      { answer := strL "I can answer:\n1) 'capital of <country>'\n2) 'which continent is <country> in'\n3) 'list countries in <continent>'"
        sources := [] } := by
  unfold Ask AskQ ask2 ask3 ask4
  rw [h1, h2, h3, h4]
  rfl

/-- Witness for C7: `hello there` matches no pattern and gets the help
text, with the same response under different `top_k`/`include_sources`. -/
theorem claimC7_fallback_witness :
    Ask stIndia (strL "hello there") 42 true =
      { answer := strL "I can answer:\n1) 'capital of <country>'\n2) 'which continent is <country> in'\n3) 'list countries in <continent>'"
        sources := [] } :=
  claimC7_fallback stIndia (strL "hello there") 42 true (by decide) (by decide) (by decide) (by decide)

/-! Helper lemmas: which handler `Ask` dispatches to. -/

theorem ask_branch1 (st : Store) (q : List Char) (k : Int) (inc : Bool) (cap : List Char)
    (h1 : searchCapAux lit1 none (normQ q) = some cap) :
    Ask st q k inc = capitalLookup st (stripChars cap) inc := by
  unfold Ask AskQ
  rw [h1]

theorem ask_branch2 (st : Store) (q : List Char) (k : Int) (inc : Bool) (cap : List Char)
    (h1 : searchCapAux lit1 none (normQ q) = none)
    (h2 : searchP2 none (normQ q) = some cap) :
    Ask st q k inc = continentLookup st (stripChars cap) inc := by
  unfold Ask AskQ ask2
  rw [h1, h2]

theorem ask_branch3 (st : Store) (q : List Char) (k : Int) (inc : Bool) (cap : List Char)
    (h1 : searchCapAux lit1 none (normQ q) = none)
    (h2 : searchP2 none (normQ q) = none)
    (h3 : searchCapAux lit3 none (normQ q) = some cap) :
    Ask st q k inc = listCountries st (stripChars cap) (if 0 < k then k else 10) inc := by
  unfold Ask AskQ ask2 ask3
  rw [h1, h2, h3]

/-- C5: a request with `topK ≤ 0` gets a response identical to the same
request with `topK = 10`; and in the continent-listing branch a `topK`
at least the continent list's length leaves the whole list: the
response is built from the untruncated list, with no padding and no
error. -/
theorem claimC5_topk_bounds :
    (∀ (st : Store) (q : List Char) (inc : Bool) (k : Int), k ≤ 0 →
      Ask st q k inc = Ask st q 10 inc)
    ∧ ∀ (st : Store) (q : List Char) (inc : Bool) (k : Int) (cap : List Char),
        searchCapAux lit1 none (normQ q) = none →
        searchP2 none (normQ q) = none →
        searchCapAux lit3 none (normQ q) = some cap →
        (dictGetD st.by_continent (lowerL (stripChars cap)) []).length ≤ effTopK k →
        Ask st q k inc =
          if dictGetD st.by_continent (lowerL (stripChars cap)) [] = [] then
            { answer := strL "I don't have any countries for continent '" ++ stripChars cap ++ strL "'."
              sources := [] }
          else
            { answer := strL "Countries in " ++ stripChars cap ++ strL ": " ++
                joinSep (strL ", ")
                  ((dictGetD st.by_continent (lowerL (stripChars cap)) []).map GeoItem.country) ++ strL "."
              sources :=
                if inc then (dictGetD st.by_continent (lowerL (stripChars cap)) []).map GeoItem.row
                else [] } := by
  constructor
  · intro st q inc k hk
    unfold Ask AskQ
    rw [if_neg (by omega), if_pos (by norm_num)]
  · intro st q inc k cap h1 h2 h3 hlen
    rw [ask_branch3 st q k inc cap h1 h2 h3]
    unfold listCountries
    unfold effTopK at hlen
    rw [List.take_of_length_le hlen]
    cases hL : dictGetD st.by_continent (lowerL (stripChars cap)) [] with
    | nil => rfl
    | cons a t => rfl

/-- Witness for C5: `topK = -3` answers like `topK = 10`, and a `topK`
of 99 over the seven Asian rows lists all seven without padding. -/
theorem claimC5_topk_bounds_witness :
    Ask stIndia (strL "capital of India") (-3) true = Ask stIndia (strL "capital of India") 10 true
    ∧ Ask stAsia (strL "list countries in Asia") 99 true =
        { answer := strL "Countries in asia: India, Japan, China, Nepal, Thailand, Vietnam, Laos."
          sources :=
            [strL "India,New Delhi,Asia", strL "Japan,Tokyo,Asia", strL "China,Beijing,Asia",
             strL "Nepal,Kathmandu,Asia", strL "Thailand,Bangkok,Asia", strL "Vietnam,Hanoi,Asia",
             strL "Laos,Vientiane,Asia"] } :=
  ⟨claimC5_topk_bounds.1 stIndia (strL "capital of India") true (-3) (by decide),
   claimC5_topk_bounds.2 stAsia (strL "list countries in Asia") true 99 (strL "asia")
     (by decide) (by decide) (by decide) (by decide)⟩

/-- C8: after loading, the country index maps every key to the last
valid record whose lowercased country equals it (last-write-wins), and
the continent index holds every valid record naming a continent, in
input order and without deduplication. -/
theorem claimC8_index_invariants (rows : List (List (List Char))) (key ckey : List Char) :
    dictGet (load_geo rows).countries key =
      ((itemsOf rows).filter fun it => decide (lowerL it.country = key)).getLast?
    ∧ dictGetD (load_geo rows).by_continent ckey [] =
      (itemsOf rows).filter fun it => decide (lowerL it.continent = ckey) := by
  constructor
  · unfold load_geo
    rw [load_countries_aux rows { countries := [], by_continent := [] } key]
    cases hF : ((itemsOf rows).filter fun it => decide (lowerL it.country = key)).getLast? with
    | some v => rfl
    | none => rfl
  · unfold load_geo
    rw [load_continent_aux rows { countries := [], by_continent := [] } ckey]
    simp [dictGetD, dictGet]

/-! Helper lemmas for C9: only valid rows reach the store, and every
cited source line is the `row` of a loaded record. -/

theorem rowItem_none_iff (r : List (List Char)) : rowItem r = none ↔ r.length < 3 := by
  cases r with
  | nil => simp [rowItem]
  | cons a t =>
    cases t with
    | nil => simp [rowItem]
    | cons b u =>
      cases u with
      | nil => simp [rowItem]
      | cons c v =>
        simp only [rowItem, List.length_cons]
        constructor
        · intro h
          exact absurd h (by simp)
        · omega

theorem loadStep_invalid (st : Store) (r : List (List Char)) (h : rowItem r = none) :
    loadStep st r = st := by
  unfold loadStep
  rw [h]

theorem load_filter_valid (rows : List (List (List Char))) : ∀ st : Store,
    rows.foldl loadStep st = (rows.filter fun r => decide (3 ≤ r.length)).foldl loadStep st := by
  induction rows with
  | nil => intro st; rfl
  | cons r rows ih =>
    intro st
    rw [List.filter_cons]
    by_cases hr : 3 ≤ r.length
    · rw [if_pos (by simpa using hr), List.foldl_cons, List.foldl_cons, ih]
    · have hnone : rowItem r = none := (rowItem_none_iff r).mpr (by omega)
      rw [if_neg (by simpa using hr), List.foldl_cons, loadStep_invalid st r hnone, ih]

theorem dictGet_countries_mem (rows : List (List (List Char))) (key : List Char) (item : GeoItem)
    (h : dictGet (load_geo rows).countries key = some item) : item ∈ itemsOf rows := by
  unfold load_geo at h
  rw [load_countries_aux rows { countries := [], by_continent := [] } key] at h
  cases hF : ((itemsOf rows).filter fun it => decide (lowerL it.country = key)).getLast? with
  | none => rw [hF] at h; simp [dictGet] at h
  | some v =>
    rw [hF] at h
    simp only [Option.elim] at h
    injection h with hv
    subst hv
    exact (List.mem_filter.mp (List.mem_of_mem_getLast? hF)).1

theorem dictGetD_continent_mem (rows : List (List (List Char))) (ckey : List Char) (x : GeoItem)
    (h : x ∈ dictGetD (load_geo rows).by_continent ckey []) : x ∈ itemsOf rows := by
  unfold load_geo at h
  rw [load_continent_aux rows { countries := [], by_continent := [] } ckey] at h
  simp only [dictGetD, dictGet, List.nil_append] at h
  exact (List.mem_filter.mp h).1

/-- Dispatch of `Ask` to pattern 4 (reached only when 1 to 3 fail). -/
theorem ask_branch4 (st : Store) (q : List Char) (k : Int) (inc : Bool) (cap : List Char)
    (h1 : searchCapAux lit1 none (normQ q) = none)
    (h2 : searchP2 none (normQ q) = none)
    (h3 : searchCapAux lit3 none (normQ q) = none)
    (h4 : searchCapAux lit4 none (normQ q) = some cap) :
    Ask st q k inc = capitalLookup st (stripChars cap) inc := by
  unfold Ask AskQ ask2 ask3 ask4
  rw [h1, h2, h3, h4]

/-- Dispatch of `Ask` to the fallback. -/
theorem ask_fallback (st : Store) (q : List Char) (k : Int) (inc : Bool)
    (h1 : searchCapAux lit1 none (normQ q) = none)
    (h2 : searchP2 none (normQ q) = none)
    (h3 : searchCapAux lit3 none (normQ q) = none)
    (h4 : searchCapAux lit4 none (normQ q) = none) :
    Ask st q k inc = fallbackResponse := by
  unfold Ask AskQ ask2 ask3 ask4
  rw [h1, h2, h3, h4]

theorem ask_sources_mem (rows : List (List (List Char))) (q : List Char) (k : Int) (inc : Bool)
    (src : List Char) (h : src ∈ (Ask (load_geo rows) q k inc).sources) :
    ∃ it ∈ itemsOf rows, it.row = src := by
  cases hs1 : searchCapAux lit1 none (normQ q) with
  | some cap =>
    rw [ask_branch1 (load_geo rows) q k inc cap hs1] at h
    unfold capitalLookup at h
    cases hit : dictGet (load_geo rows).countries (lowerL (stripChars cap)) with
    | none => rw [hit] at h; simp at h
    | some item =>
      rw [hit] at h
      by_cases hinc : inc
      · simp [hinc] at h
        exact ⟨item, dictGet_countries_mem rows _ item hit, h.symm⟩
      · simp [hinc] at h
  | none =>
    cases hs2 : searchP2 none (normQ q) with
    | some cap =>
      rw [ask_branch2 (load_geo rows) q k inc cap hs1 hs2] at h
      unfold continentLookup at h
      cases hit : dictGet (load_geo rows).countries (lowerL (stripChars cap)) with
      | none => rw [hit] at h; simp at h
      | some item =>
        rw [hit] at h
        by_cases hinc : inc
        · simp [hinc] at h
          exact ⟨item, dictGet_countries_mem rows _ item hit, h.symm⟩
        · simp [hinc] at h
    | none =>
      cases hs3 : searchCapAux lit3 none (normQ q) with
      | some cap =>
        rw [ask_branch3 (load_geo rows) q k inc cap hs1 hs2 hs3] at h
        unfold listCountries at h
        cases hT : (dictGetD (load_geo rows).by_continent (lowerL (stripChars cap)) []).take
            ((if 0 < k then k else 10).toNat) with
        | nil => rw [hT] at h; simp at h
        | cons a t =>
          rw [hT] at h
          by_cases hinc : inc
          · simp only [hinc, List.isEmpty_cons, if_neg, Bool.false_eq_true,
              not_false_eq_true, if_true] at h
            have hmem : src ∈ (a :: t).map GeoItem.row := by
              simpa [hinc] using h
            obtain ⟨x, hx, hxr⟩ := List.mem_map.mp hmem
            have hx2 : x ∈ dictGetD (load_geo rows).by_continent (lowerL (stripChars cap)) [] := by
              have : x ∈ (dictGetD (load_geo rows).by_continent (lowerL (stripChars cap)) []).take
                  ((if 0 < k then k else 10).toNat) := by rw [hT]; exact hx
              exact (List.take_sublist _ _).subset this
            exact ⟨x, dictGetD_continent_mem rows _ x hx2, hxr⟩
          · simp [hinc] at h
      | none =>
        cases hs4 : searchCapAux lit4 none (normQ q) with
        | some cap => exact absurd hs1 (searchP4_implies_P1 (normQ q) cap hs4)
        | none =>
          rw [ask_fallback (load_geo rows) q k inc hs1 hs2 hs3 hs4] at h
          simp [fallbackResponse] at h

/-- C9: loading is total and malformed rows (fewer than three fields)
are silently dropped: the store equals the one loaded from the valid
rows alone, and every source line any `Ask` response cites is the
provenance line of a valid loaded record. -/
theorem claimC9_malformed_rows_dropped (rows : List (List (List Char))) (q : List Char)
    (k : Int) (inc : Bool) :
    load_geo rows = load_geo (rows.filter fun r => decide (3 ≤ r.length))
    ∧ ((Ask (load_geo rows) q k inc).sources.all
        fun src => (itemsOf rows).any fun it => decide (it.row = src)) = true := by
  constructor
  · unfold load_geo
    exact load_filter_valid rows { countries := [], by_continent := [] }
  · rw [List.all_eq_true]
    intro src hsrc
    obtain ⟨it, hit, hrow⟩ := ask_sources_mem rows q k inc src hsrc
    rw [List.any_eq_true]
    exact ⟨it, hit, by simp [hrow]⟩

/-! Casing lemmas: the ASCII lowercasing is idempotent, and captures
taken from the lowercased question are fixed by further lowercasing. -/

theorem toLower_idem (c : Char) : (c.toLower).toLower = c.toLower := by
  by_cases h : c.toNat ≥ 65 ∧ c.toNat ≤ 90
  · have hv : (c.toNat + 32).isValidChar := Or.inl (by omega)
    have h1 : c.toLower = Char.ofNatAux (c.toNat + 32) hv := by
      simp only [Char.toLower]
      rw [if_pos h, Char.ofNat, dif_pos hv]
    have h2 : (c.toLower).toNat = c.toNat + 32 := by rw [h1]; rfl
    conv_lhs => rw [Char.toLower]
    rw [if_neg (by rw [h2]; omega)]
  · have h1 : c.toLower = c := by
      simp only [Char.toLower]
      rw [if_neg h]
    rw [h1, h1]

theorem lowerFix_of_mem (m : List Char) (h : ∀ c ∈ m, Char.toLower c = c) :
    lowerL m = m := by
  induction m with
  | nil => rfl
  | cons c t ih =>
    unfold lowerL
    rw [List.map_cons, h c (List.mem_cons_self c t)]
    have := ih fun d hd => h d (List.mem_cons_of_mem c hd)
    unfold lowerL at this
    rw [this]

theorem normQ_lowerFix (q : List Char) : ∀ c ∈ normQ q, Char.toLower c = c := by
  intro c hc
  unfold normQ lowerL at hc
  obtain ⟨b, _, rfl⟩ := List.mem_map.mp hc
  exact toLower_idem b

theorem stripChars_subset (m : List Char) (c : Char) (h : c ∈ stripChars m) : c ∈ m := by
  unfold stripChars rstripL at h
  have h1 := List.mem_reverse.mp h
  have h2 := (List.dropWhile_sublist isSpaceChar).subset h1
  have h3 := List.mem_reverse.mp h2
  exact (List.dropWhile_sublist isSpaceChar).subset h3

theorem searchCap_suffix (lit : List Char) (prev : Option Char) (l cap : List Char)
    (h : searchCapAux lit prev l = some cap) : cap <:+ l := by
  obtain ⟨a, b, hab, hcap⟩ := searchCap_some_split lit l cap prev h
  obtain ⟨_, hb, _⟩ := capMatchAt_some lit (lastPrev prev a) b cap hcap
  exact ⟨a ++ lit, by rw [hab, hb, List.append_assoc]⟩

theorem p2MatchAt_some_infix (prev : Option Char) (b cap : List Char)
    (h : p2MatchAt prev b = some cap) : cap <:+: b := by
  unfold p2MatchAt at h
  split at h
  · dsimp only [] at h
    split at h
    · injection h with hcap
      rw [← hcap]
      exact (List.IsPrefix.isInfix ⟨_, List.take_append_drop _ _⟩).trans (List.drop_suffix _ b).isInfix
    · split at h
      · injection h with hcap
        rw [← hcap]
        exact (List.IsPrefix.isInfix ⟨_, List.take_append_drop _ _⟩).trans (List.drop_suffix _ b).isInfix
      · simp at h
  · simp at h

theorem searchP2_infix (l : List Char) : ∀ (prev : Option Char) (cap : List Char),
    searchP2 prev l = some cap → cap <:+: l := by
  induction l with
  | nil =>
    intro prev cap h
    exact p2MatchAt_some_infix prev [] cap (by simpa [searchP2] using h)
  | cons c rest ih =>
    intro prev cap h
    cases hm : p2MatchAt prev (c :: rest) with
    | some cap' =>
      have hc : cap' = cap := by
        have := h
        simp [searchP2, hm] at this
        exact this
      exact p2MatchAt_some_infix prev (c :: rest) cap (by rwa [hc] at hm)
    | none =>
      have hrec : searchP2 (some c) rest = some cap := by
        have := h
        simpa [searchP2, hm] using this
      exact List.infix_cons (ih (some c) cap hrec)

theorem capture_lower_fixed (q cap : List Char) (hinf : cap <:+: normQ q) :
    lowerL (stripChars cap) = stripChars cap :=
  lowerFix_of_mem _ fun c hc => normQ_lowerFix q c (hinf.subset (stripChars_subset cap c hc))

/-- C6 (amended reading is the claim itself): when the captured country
of the capital-lookup or continent-lookup intent is absent from the
country index, the answer embeds the stripped capture — which, coming
from the lowercased question, is fixed under lowercasing — and sources
are empty. -/
theorem claimC6_unknown_country (st : Store) (q : List Char) (k : Int) (inc : Bool)
    (cap : List Char)
    (hcase : searchCapAux lit1 none (normQ q) = some cap
      ∨ (searchCapAux lit1 none (normQ q) = none ∧ searchP2 none (normQ q) = some cap))
    (hmiss : dictGet st.countries (lowerL (stripChars cap)) = none) :
    lowerL (stripChars cap) = stripChars cap
    ∧ Ask st q k inc =
        { answer := strL "I don't have data for '" ++ stripChars cap ++ strL "'."
          sources := [] } := by
  have hinf : cap <:+: normQ q := by
    rcases hcase with h1 | ⟨h1, h2⟩
    · exact (searchCap_suffix lit1 none (normQ q) cap h1).isInfix
    · exact searchP2_infix (normQ q) none cap h2
  refine ⟨capture_lower_fixed q cap hinf, ?_⟩
  rcases hcase with h1 | ⟨h1, h2⟩
  · rw [ask_branch1 st q k inc cap h1]
    unfold capitalLookup
    rw [hmiss]
  · rw [ask_branch2 st q k inc cap h1 h2]
    unfold continentLookup
    rw [hmiss]

/-- Witness for C6: the Atlantis example, whose lowercased capture is
embedded in the answer. -/
theorem claimC6_unknown_country_witness :
    lowerL (stripChars (strL "atlantis")) = stripChars (strL "atlantis")
    ∧ Ask stIndia (strL "which continent is Atlantis in?") 1 true =
        { answer := strL "I don't have data for 'atlantis'."
          sources := [] } :=
  claimC6_unknown_country stIndia (strL "which continent is Atlantis in?") 1 true
    (strL "atlantis") (Or.inr ⟨by decide, by decide⟩) (by decide)

/-- C2, corrected: both continent-listing answer templates embed the
trimmed capture taken from the *lowercased* normalized question (which
is therefore fixed under lowercasing), not the original question
casing. -/
theorem claimC2_listing_casing (st : Store) (q : List Char) (k : Int) (inc : Bool)
    (cap : List Char)
    (h1 : searchCapAux lit1 none (normQ q) = none)
    (h2 : searchP2 none (normQ q) = none)
    (h3 : searchCapAux lit3 none (normQ q) = some cap) :
    lowerL (stripChars cap) = stripChars cap
    ∧ Ask st q k inc =
        if (dictGetD st.by_continent (lowerL (stripChars cap)) []).take (effTopK k) = [] then
          { answer := strL "I don't have any countries for continent '" ++ stripChars cap ++ strL "'."
            sources := [] }
        else
          { answer := strL "Countries in " ++ stripChars cap ++ strL ": " ++
              joinSep (strL ", ")
                (((dictGetD st.by_continent (lowerL (stripChars cap)) []).take (effTopK k)).map
                  GeoItem.country) ++ strL "."
            sources :=
              if inc then
                ((dictGetD st.by_continent (lowerL (stripChars cap)) []).take (effTopK k)).map
                  GeoItem.row
              else [] } := by
  refine ⟨capture_lower_fixed q cap (searchCap_suffix lit3 none (normQ q) cap h3).isInfix, ?_⟩
  rw [ask_branch3 st q k inc cap h1 h2 h3]
  unfold listCountries
  have he : (if 0 < k then k else 10).toNat = effTopK k := rfl
  rw [he]
  cases hT : (dictGetD st.by_continent (lowerL (stripChars cap)) []).take (effTopK k) with
  | nil => rfl
  | cons a t => rfl

/-- Counterexample to C2 as stated: `Ask("list countries in Asia")`
answers with the lowercased `Countries in asia: ` prefix, not
`Countries in Asia: `. -/
theorem claimC2_listing_casing_counterexample :
    (Ask stAsia (strL "list countries in Asia") 5 true).answer.take 19 ≠
      strL "Countries in Asia: " := by
  decide

/-- Witness for C2: the concrete Asia listing embeds the lowercased
capture. -/
theorem claimC2_listing_casing_witness :
    lowerL (stripChars (strL "asia")) = stripChars (strL "asia")
    ∧ Ask stAsia (strL "list countries in Asia") 5 true =
        { answer := strL "Countries in asia: India, Japan, China, Nepal, Thailand."
          sources := [strL "India,New Delhi,Asia", strL "Japan,Tokyo,Asia",
            strL "China,Beijing,Asia", strL "Nepal,Kathmandu,Asia", strL "Thailand,Bangkok,Asia"] } :=
  claimC2_listing_casing stAsia (strL "list countries in Asia") 5 true (strL "asia")
    (by decide) (by decide) (by decide)

/-- C4: the continent-listing answer lists the first
`min(effectiveTopK, n)` loaded records for the continent, in load
order, names joined by `", "`, and with sources exactly the source
lines of the same records in the same order when requested (no
sorting, no padding). -/
theorem claimC4_listing_truncation (rows : List (List (List Char))) (q : List Char)
    (k : Int) (inc : Bool) (cap : List Char) (L : List GeoItem)
    (h1 : searchCapAux lit1 none (normQ q) = none)
    (h2 : searchP2 none (normQ q) = none)
    (h3 : searchCapAux lit3 none (normQ q) = some cap)
    (hL : ((itemsOf rows).filter fun it => decide (lowerL it.continent = lowerL (stripChars cap))) = L)
    (hne : L.take (effTopK k) ≠ []) :
    (L.take (effTopK k)).length = min (effTopK k) L.length
    ∧ Ask (load_geo rows) q k inc =
        { answer := strL "Countries in " ++ stripChars cap ++ strL ": " ++
            joinSep (strL ", ") ((L.take (effTopK k)).map GeoItem.country) ++ strL "."
          sources := if inc then (L.take (effTopK k)).map GeoItem.row else [] } := by
  constructor
  · simp [List.length_take]
  · have hD : dictGetD (load_geo rows).by_continent (lowerL (stripChars cap)) [] = L := by
      rw [← hL]
      unfold load_geo
      rw [load_continent_aux rows { countries := [], by_continent := [] } (lowerL (stripChars cap))]
      simp [dictGetD, dictGet]
    rw [ask_branch3 (load_geo rows) q k inc cap h1 h2 h3]
    unfold listCountries
    rw [hD]
    have he : (if 0 < k then k else 10).toNat = effTopK k := rfl
    rw [he]
    cases hT : L.take (effTopK k) with
    | nil => exact absurd hT hne
    | cons a t => rfl

/-- Witness for C4: the specification's seven-Asian-rows example with
`topK = 5` lists the first five names in load order with five matching
sources. -/
theorem claimC4_listing_truncation_witness :
    ((((itemsOf rowsAsia).filter fun it =>
        decide (lowerL it.continent = lowerL (stripChars (strL "asia")))).take (effTopK 5)).length =
      min (effTopK 5)
        ((itemsOf rowsAsia).filter fun it =>
          decide (lowerL it.continent = lowerL (stripChars (strL "asia")))).length)
    ∧ Ask stAsia (strL "list countries in  Asia ") 5 true =
        { answer := strL "Countries in asia: India, Japan, China, Nepal, Thailand."
          sources := [strL "India,New Delhi,Asia", strL "Japan,Tokyo,Asia",
            strL "China,Beijing,Asia", strL "Nepal,Kathmandu,Asia", strL "Thailand,Bangkok,Asia"] } :=
  claimC4_listing_truncation rowsAsia (strL "list countries in  Asia ") 5 true (strL "asia") _
    (by decide) (by decide) (by decide) rfl (by decide)

/-! Whitespace and casing structure lemmas, used to decompose the
normalization of a question built by concatenation. -/

theorem dropWhile_head_false (p : Char → Bool) : ∀ (l : List Char) (c : Char) (t : List Char),
    l.dropWhile p = c :: t → p c = false := by
  intro l
  induction l with
  | nil => intro c t h; simp [List.dropWhile] at h
  | cons a l' ih =>
    intro c t h
    rw [List.dropWhile_cons] at h
    by_cases ha : p a
    · rw [if_pos ha] at h
      exact ih c t h
    · rw [if_neg ha] at h
      injection h with h1 _
      rw [← h1]
      simpa using ha

theorem rstripL_idem (l : List Char) : rstripL (rstripL l) = rstripL l := by
  unfold rstripL
  rw [List.reverse_reverse, List.dropWhile_idempotent]

theorem stripChars_idem (l : List Char) : stripChars (stripChars l) = stripChars l := by
  unfold stripChars
  suffices h : (rstripL (l.dropWhile isSpaceChar)).dropWhile isSpaceChar =
      rstripL (l.dropWhile isSpaceChar) by
    rw [h, rstripL_idem]
  cases hm : l.dropWhile isSpaceChar with
  | nil => simp [rstripL]
  | cons c t =>
    have hc : isSpaceChar c = false := dropWhile_head_false _ l c t hm
    unfold rstripL
    rw [List.reverse_cons, List.dropWhile_append]
    by_cases hE : (t.reverse.dropWhile isSpaceChar).isEmpty
    · rw [if_pos hE]
      simp [List.dropWhile_cons, hc]
    · rw [if_neg hE]
      simp [List.reverse_append, List.dropWhile_cons, hc]

theorem isSpaceChar_false_of_ge (c : Char) (h : 65 ≤ c.toNat) : isSpaceChar c = false := by
  have hne : ∀ d : Char, d.toNat < 65 → ¬ (c = d) := by
    intro d hd he
    rw [he] at h
    omega
  unfold isSpaceChar
  simp [hne ' ' (by decide), hne '\t' (by decide), hne '\n' (by decide),
    hne '\r' (by decide), hne '\x0b' (by decide), hne '\x0c' (by decide)]

theorem isSpaceChar_toLower (c : Char) : isSpaceChar (c.toLower) = isSpaceChar c := by
  by_cases h : c.toNat ≥ 65 ∧ c.toNat ≤ 90
  · have hv : (c.toNat + 32).isValidChar := Or.inl (by omega)
    have h1 : c.toLower = Char.ofNatAux (c.toNat + 32) hv := by
      simp only [Char.toLower]
      rw [if_pos h, Char.ofNat, dif_pos hv]
    have h2 : (c.toLower).toNat = c.toNat + 32 := by rw [h1]; rfl
    rw [isSpaceChar_false_of_ge c (by omega), isSpaceChar_false_of_ge c.toLower (by omega)]
  · have h1 : c.toLower = c := by
      simp only [Char.toLower]
      rw [if_neg h]
    rw [h1]

theorem stripChars_lowerL (y : List Char) : stripChars (lowerL y) = lowerL (stripChars y) := by
  have hfun : (isSpaceChar ∘ Char.toLower) = isSpaceChar := funext isSpaceChar_toLower
  unfold stripChars rstripL lowerL
  rw [List.dropWhile_map, hfun, ← List.map_reverse, List.dropWhile_map, hfun, ← List.map_reverse]

theorem lowerL_idem (m : List Char) : lowerL (lowerL m) = lowerL m := by
  induction m with
  | nil => rfl
  | cons c t ih =>
    unfold lowerL at *
    rw [List.map_cons, List.map_cons, toLower_idem, ih]

theorem rstripL_append (a b : List Char) :
    rstripL (a ++ b) = if rstripL b = [] then rstripL a else a ++ rstripL b := by
  unfold rstripL
  rw [List.reverse_append, List.dropWhile_append]
  by_cases hb : (b.reverse.dropWhile isSpaceChar).isEmpty
  · rw [if_pos hb]
    rw [if_pos (by rw [List.isEmpty_iff.mp hb]; rfl)]
  · rw [if_neg hb]
    have hne : (b.reverse.dropWhile isSpaceChar).reverse ≠ [] := by
      intro h
      apply hb
      rw [List.isEmpty_iff]
      have := congrArg List.reverse h
      rwa [List.reverse_reverse] at this
    rw [if_neg hne, List.reverse_append, List.reverse_reverse]

theorem rstripL_last_not_space (X : List Char) (h : rstripL X ≠ []) :
    ∃ c ∈ rstripL X, isSpaceChar c = false := by
  unfold rstripL at *
  cases hm : X.reverse.dropWhile isSpaceChar with
  | nil => rw [hm] at h; simp at h
  | cons c t =>
    refine ⟨c, ?_, dropWhile_head_false _ _ c t hm⟩
    simp

theorem collapseAux_append : ∀ (a b : List Char) (s : Bool),
    collapseAux (a ++ b) s = collapseAux a s ++ collapseAux b (collapseState a s) := by
  intro a
  induction a with
  | nil => intro b s; rfl
  | cons c t ih =>
    intro b s
    by_cases hc : isSpaceChar c <;> cases s <;> simp [collapseAux, collapseState, hc, ih]

theorem collapseAux_ne_nil : ∀ (l : List Char) (s : Bool),
    (∃ c ∈ l, isSpaceChar c = false) → collapseAux l s ≠ [] := by
  intro l
  induction l with
  | nil =>
    intro s h
    obtain ⟨c, hc, _⟩ := h
    simp at hc
  | cons d t ih =>
    intro s h
    by_cases hd : isSpaceChar d
    · obtain ⟨c, hc, hcs⟩ := h
      have hct : c ∈ t := by
        cases List.mem_cons.mp hc with
        | inl he => rw [he, hd] at hcs; cases hcs
        | inr h2 => exact h2
      cases s with
      | true => simpa [collapseAux, hd] using ih true ⟨c, hct, hcs⟩
      | false => simp [collapseAux, hd]
    · simp [collapseAux, hd]

theorem searchCap_lit4_self (r : List Char) (h : r ≠ []) :
    searchCapAux lit1 none (lit4 ++ r) = some r := by
  cases r with
  | nil => exact absurd rfl h
  | cons c cs => rfl

theorem normQ_lit4_append (X : List Char) :
    normQ (lit4 ++ X) =
      if rstripL X = [] then strL "what is the capital of"
      else lit4 ++ lowerL (collapseAux (rstripL X) true) := by
  unfold normQ normalizeSpaces stripChars
  have hl : (lit4 ++ X).dropWhile isSpaceChar = lit4 ++ X := rfl
  rw [hl, rstripL_append]
  by_cases hX : rstripL X = []
  · rw [if_pos hX, if_pos hX]
    rfl
  · rw [if_neg hX, if_neg hX, collapseAux_append]
    rw [show collapseAux lit4 false = lit4 from rfl]
    rw [show collapseState lit4 false = true from rfl]
    unfold lowerL
    rw [List.map_append]
    rw [show List.map Char.toLower lit4 = lit4 from rfl]

theorem normQ_lit1_append (X : List Char) :
    normQ (lit1 ++ X) =
      if rstripL X = [] then strL "capital of"
      else lit1 ++ lowerL (collapseAux (rstripL X) true) := by
  unfold normQ normalizeSpaces stripChars
  have hl : (lit1 ++ X).dropWhile isSpaceChar = lit1 ++ X := rfl
  rw [hl, rstripL_append]
  by_cases hX : rstripL X = []
  · rw [if_pos hX, if_pos hX]
    rfl
  · rw [if_neg hX, if_neg hX, collapseAux_append]
    rw [show collapseAux lit1 false = lit1 from rfl]
    rw [show collapseState lit1 false = true from rfl]
    unfold lowerL
    rw [List.map_append]
    rw [show List.map Char.toLower lit1 = lit1 from rfl]

/-- C1, corrected: for every string `X`, the question
`what is the capital of X` gets exactly the same response as
`capital of X` — the `what is the capital of` phrasing routes through
pattern 1, whose capture is the whole remainder.  Taking `X` with a
trailing `?` shows the `?` stays in the capture: the counterexample
below refutes the claim's reading that a trailing `?` is dropped. -/
theorem claimC1_what_is_phrasing (st : Store) (k : Int) (inc : Bool) (X : List Char) :
    Ask st (lit4 ++ X) k inc = Ask st (lit1 ++ X) k inc := by
  unfold Ask
  rw [normQ_lit4_append X, normQ_lit1_append X]
  by_cases hX : rstripL X = []
  · rw [if_pos hX, if_pos hX]
    rfl
  · rw [if_neg hX, if_neg hX]
    have hY : lowerL (collapseAux (rstripL X) true) ≠ [] := by
      intro hnil
      unfold lowerL at hnil
      rw [List.map_eq_nil_iff] at hnil
      exact collapseAux_ne_nil (rstripL X) true (rstripL_last_not_space X hX) hnil
    unfold AskQ
    rw [searchCap_lit4_self _ hY, searchCap_self lit1 _ hY]

/-- Counterexample to C1 as stated: with the `India,New Delhi,Asia` row
loaded, `Ask("what is the capital of India?")` does not return the same
response as `Ask("capital of India")` — the trailing `?` stays in the
capture, so the first answers `I don't have data for 'india?'.`. -/
theorem claimC1_what_is_phrasing_counterexample :
    Ask stIndia (strL "what is the capital of India?") 1 true ≠
      Ask stIndia (strL "capital of India") 1 true := by
  decide

theorem itemsOf_fields (rows : List (List (List Char))) (it : GeoItem) (h : it ∈ itemsOf rows) :
    stripChars it.country = it.country
    ∧ it.row = it.country ++ strL "," ++ it.capital ++ strL "," ++ it.continent := by
  obtain ⟨r, _, hr⟩ := List.mem_filterMap.mp h
  cases r with
  | nil => simp [rowItem] at hr
  | cons c0 t0 =>
    cases t0 with
    | nil => simp [rowItem] at hr
    | cons c1 t1 =>
      cases t1 with
      | nil => simp [rowItem] at hr
      | cons c2 t2 =>
        unfold rowItem at hr
        injection hr with hr
        subst hr
        exact ⟨stripChars_idem c0, rfl⟩

/-- C3, corrected: a valid triple that is the *last* of its
case-insensitive country key is found by looking up the lowercased
country name; the found record carries the stripped fields and the
exact `country,capital,continent` source line, and any question
normalizing to `capital of <country>` — any casing, any extra
whitespace — is answered from that record with its original casing,
citing the source line exactly when sources are requested. -/
theorem claimC3_loaded_triple (rows : List (List (List Char))) (q : List Char)
    (k : Int) (inc : Bool) (it : GeoItem)
    (hlast : ((itemsOf rows).filter fun j =>
        decide (lowerL j.country = lowerL it.country)).getLast? = some it)
    (hne : it.country ≠ [])
    (hq : normQ q = lit1 ++ lowerL it.country) :
    dictGet (load_geo rows).countries (lowerL it.country) = some it
    ∧ it.row = it.country ++ strL "," ++ it.capital ++ strL "," ++ it.continent
    ∧ Ask (load_geo rows) q k inc =
        { answer := strL "The capital of " ++ it.country ++ strL " is " ++ it.capital ++ strL "."
          sources := if inc then [it.row] else [] } := by
  have hmem : it ∈ itemsOf rows := (List.mem_filter.mp (List.mem_of_mem_getLast? hlast)).1
  obtain ⟨hstrip, hrow⟩ := itemsOf_fields rows it hmem
  have hget : dictGet (load_geo rows).countries (lowerL it.country) = some it := by
    unfold load_geo
    rw [load_countries_aux rows { countries := [], by_continent := [] } (lowerL it.country), hlast]
    rfl
  refine ⟨hget, hrow, ?_⟩
  have hYne : lowerL it.country ≠ [] := by
    intro hnil
    unfold lowerL at hnil
    rw [List.map_eq_nil_iff] at hnil
    exact hne hnil
  unfold Ask
  rw [hq]
  unfold AskQ
  rw [searchCap_self lit1 _ hYne]
  show capitalLookup (load_geo rows) (stripChars (lowerL it.country)) inc = _
  rw [show stripChars (lowerL it.country) = lowerL it.country by rw [stripChars_lowerL, hstrip]]
  unfold capitalLookup
  rw [lowerL_idem, hget]

/-- Counterexample to C3 as stated: in `rowsDup` the valid triple
`France,Paris,Europe` is loaded, but its key was overwritten by the
later `FRANCE,Lyon,Europe` row, so `Ask("capital of France")` does not
answer from it. -/
theorem claimC3_loaded_triple_counterexample :
    Ask stDup (strL "capital of France") 1 true ≠
      { answer := strL "The capital of France is Paris."
        sources := [strL "France,Paris,Europe"] } := by
  decide

/-- Witness for C3: the `India,New Delhi,Asia` example, asked with
scrambled casing and extra whitespace. -/
theorem claimC3_loaded_triple_witness :
    dictGet stIndia.countries (lowerL (strL "India")) =
      some { country := strL "India", capital := strL "New Delhi", continent := strL "Asia"
             row := strL "India,New Delhi,Asia" }
    ∧ strL "India,New Delhi,Asia" =
        strL "India" ++ strL "," ++ strL "New Delhi" ++ strL "," ++ strL "Asia"
    ∧ Ask stIndia (strL "  CAPITAL   of   India ") 2 true =
        { answer := strL "The capital of India is New Delhi."
          sources := [strL "India,New Delhi,Asia"] } :=
  claimC3_loaded_triple rowsIndia (strL "  CAPITAL   of   India ") 2 true
    { country := strL "India", capital := strL "New Delhi", continent := strL "Asia"
      row := strL "India,New Delhi,Asia" }
    (by decide) (by decide) (by decide)
